import Mathlib

/-!
Shallow embedding of the title-extraction pipeline of
`scripts/update_pdf_file_names.py`: the plausibility classifier
`is_likely_title`, the three extractors (`extract_title_from_chars`,
`extract_title_from_positioned_text`, `extract_title_fallback`), the
orchestrator `extract_title` and the filename normalizer
`format_filename`.

Conventions of the embedding:
* Python floats are modelled as exact rationals (`ℚ`).
* A Python function annotated `-> TitleExtractionResult` that can also
  return the Python value `None` is modelled as
  `... → Option TitleExtractionResult`, with `none` standing for the
  `None` object.  Dereferencing `.title` on `None` raises
  `AttributeError` in Python, so the orchestrator is likewise
  `Option`-valued: `none` models the propagated exception.
* `dict` grouping is modelled by association lists keyed by exact value,
  preserving insertion order inside each bucket, and Python's stable
  `sorted` by an insertion sort.
-/

namespace PdfRename

attribute [local semireducible] Rat.mul Rat.add Rat.sub Rat.inv

/-- Python `\s` / `str.isspace` for the ASCII range (space, tab, newline,
carriage return, vertical tab, form feed). -/
def pyIsSpace (c : Char) : Bool :=
  c = ' ' || c = '\t' || c = '\n' || c = '\r' || c = '\x0b' || c = '\x0c'

/-- Python `str.lower`, restricted to ASCII case mapping. -/
def pyLower (s : String) : String :=
  String.mk (s.data.map Char.toLower)

/-- `str.strip` on a character list: drop whitespace from both ends. -/
def stripList (l : List Char) : List Char :=
  ((l.dropWhile pyIsSpace).reverse.dropWhile pyIsSpace).reverse

/-- Python `str.strip` (ASCII whitespace). -/
def pyStrip (s : String) : String :=
  String.mk (stripList s.data)

/-- Helper for Python `str.split()` with no separator: accumulate the
current word (reversed) and emit maximal non-whitespace runs. -/
def pySplitAux : List Char → List Char → List String
  | [], acc => if acc.isEmpty then [] else [String.mk acc.reverse]
  | c :: cs, acc =>
    if pyIsSpace c then
      if acc.isEmpty then pySplitAux cs []
      else String.mk acc.reverse :: pySplitAux cs []
    else pySplitAux cs (c :: acc)

/-- Python `text.split()` — split on whitespace runs, no empty pieces. -/
def pySplit (s : String) : List String :=
  pySplitAux s.data []

/-- Number of alphabetic characters (Python `sum(c.isalpha() ...)`,
ASCII letters). -/
def alphaCount (s : String) : Nat :=
  (s.data.filter Char.isAlpha).length

/-! ### The anchored skip patterns of `is_likely_title`

Every pattern in the source starts with `^` and `re.search` is used
without `re.MULTILINE`, so each is a prefix match on the
lowercased-and-stripped text.  Each regex is compiled by hand into a
decidable prefix matcher on the character list. -/

/-- `\s+\d+` with nothing after: at least one whitespace char, then at
least one digit. -/
def wsThenDigit (l : List Char) : Bool :=
  match l with
  | [] => false
  | c :: _ =>
    pyIsSpace c &&
      (match l.dropWhile pyIsSpace with
       | d :: _ => d.isDigit
       | [] => false)

/-- Consume a literal word at the front, returning the rest. -/
def dropLit : List Char → List Char → Option (List Char)
  | [], rest => some rest
  | _ :: _, [] => none
  | c :: cs, d :: ds => if c = d then dropLit cs ds else none

/-- `^page\s+\d+`, `^chapter\s+\d+`, `^section\s+\d+` share this shape. -/
def matchWordNum (w : String) (l : List Char) : Bool :=
  match dropLit w.data l with
  | some rest => wsThenDigit rest
  | none => false

/-- `^\d+$` — the whole (stripped) string is one or more digits. -/
def matchAllDigits (l : List Char) : Bool :=
  !l.isEmpty && l.all Char.isDigit

/-- `^\d+\s*of\s*\d+`. -/
def matchNofM (l : List Char) : Bool :=
  match l with
  | [] => false
  | c :: _ =>
    c.isDigit &&
      (let r1 := (l.dropWhile Char.isDigit).dropWhile pyIsSpace
       match dropLit "of".data r1 with
       | some r2 =>
         match r2.dropWhile pyIsSpace with
         | d :: _ => d.isDigit
         | [] => false
       | none => false)

/-- One or two digits followed by `-` or `/`; regex backtracking order:
two digits preferred, then one. -/
def digits12Sep : List Char → Option (List Char)
  | a :: b :: c :: rest =>
    if a.isDigit && b.isDigit && (c = '-' || c = '/') then some rest
    else if a.isDigit && (b = '-' || b = '/') then some (c :: rest)
    else none
  | a :: b :: rest =>
    if a.isDigit && (b = '-' || b = '/') then some rest else none
  | _ => none

/-- The date pattern: one or two digits, a dash-or-slash separator,
one or two digits, a separator, then two to four digits. -/
def matchDate (l : List Char) : Bool :=
  match digits12Sep l with
  | some r1 =>
    (match digits12Sep r1 with
     | some r2 =>
       (match r2 with
        | a :: b :: _ => a.isDigit && b.isDigit
        | _ => false)
     | none => false)
  | none => false

/-- Lowercase ASCII letter. -/
def isLowerAZ (c : Char) : Bool := 'a' ≤ c && c ≤ 'z'

/-- `^[a-z]+@[a-z]+\.[a-z]+` — an email address. -/
def matchEmail (l : List Char) : Bool :=
  match l with
  | [] => false
  | c :: _ =>
    isLowerAZ c &&
      (match l.dropWhile isLowerAZ with
       | '@' :: r1 =>
         (match r1 with
          | d :: _ =>
            isLowerAZ d &&
              (match r1.dropWhile isLowerAZ with
               | '.' :: r2 =>
                 (match r2 with
                  | e :: _ => isLowerAZ e
                  | [] => false)
               | _ => false)
          | [] => false)
       | _ => false)

/-- Literal-prefix test. -/
def startsWithLit (w : String) (l : List Char) : Bool :=
  (dropLit w.data l).isSome

/-- Disjunction of the fourteen skip patterns, applied to the
lowercased-and-stripped text. -/
def skipAny (l : List Char) : Bool :=
  matchWordNum "page" l || matchAllDigits l || matchNofM l ||
  matchWordNum "chapter" l || matchWordNum "section" l ||
  matchDate l || matchEmail l ||
  startsWithLit "http://" l || startsWithLit "https://" l ||
  startsWithLit "www." l ||
  l = "abstract".data || l = "introduction".data ||
  l = "conclusion".data || l = "references".data ||
  l = "bibliography".data

/-- `is_likely_title` from the source: skip patterns on the
lowercased/stripped text, then the word-count, length and
alphabetic-ratio filters on the original text.  `alpha_ratio < 0.5`
is the exact rational comparison `2 * alphaCount < length`. -/
def is_likely_title (text : String) : Bool :=
  let text_lower := pyStrip (pyLower text)
  if skipAny text_lower.data then false
  else if (pySplit text).length < 3 then false
  else if text.length > 200 then false
  else if 2 * alphaCount text < text.length then false
  else true

/-! ### Data model -/

/-- One glyph of `page.chars`: the fields the extractor reads
(`size`, `y0`, `x0`, `text`). -/
structure Glyph where
  size : ℚ
  y0 : ℚ
  x0 : ℚ
  text : String
  deriving DecidableEq, Repr

/-- One word of `page.extract_words()`: `top`, `x0`, `x1`, `text`. -/
structure Word where
  top : ℚ
  x0 : ℚ
  x1 : ℚ
  text : String
  deriving DecidableEq, Repr, Inhabited

/-- The page data consumed by the extractors: glyph list, word list and
the page dimensions. -/
structure Page where
  chars : List Glyph
  words : List Word
  width : ℚ
  height : ℚ
  deriving DecidableEq, Repr

/-- The dataclass `TitleExtractionResult`. -/
structure TitleExtractionResult where
  title : Option String
  method : String
  score : ℚ
  explanation : String
  original_text_sample : String := ""
  deriving DecidableEq, Repr

/-! ### Grouping, sorting and numeric helpers -/

/-- Floor of a rational as an integer (numerator floor-divided by
denominator). -/
def qfloor (q : ℚ) : ℤ :=
  Int.fdiv q.num q.den

/-- Python string slice `s[:n]` (by code point). -/
def pyTake (s : String) (n : ℕ) : String :=
  String.mk (s.data.take n)

/-- Round half to even, as Python's `round` does on exact values.  The
fractional part `q - ⌊q⌋ = r / den` is compared with `1/2` through the
integer comparison of `2 * r` with `den`. -/
def roundHalfEven (q : ℚ) : ℤ :=
  let f := qfloor q
  let r := q.num - f * (q.den : ℤ)
  if 2 * r < (q.den : ℤ) then f
  else if 2 * r > (q.den : ℤ) then f + 1
  else if f % 2 = 0 then f else f + 1

/-- Python `round(x, 1)`. -/
def pyRound1 (q : ℚ) : ℚ :=
  mkRat (roundHalfEven (q * 10)) 10

/-- Python `f-string` formatting with one decimal place, for the
positive sizes that occur. -/
def fmtQ1 (q : ℚ) : String :=
  let n := roundHalfEven (q * 10)
  toString (n / 10) ++ "." ++ toString (n % 10)

/-- Python `f-string` formatting with no decimal place. -/
def fmtQ0 (q : ℚ) : String :=
  toString (roundHalfEven q)

/-- Insert into an association list keyed by `ℚ`, appending to the
matching bucket (Python `dict` grouping preserves in-bucket order). -/
def addToGroup {α : Type} (k : ℚ) (x : α) :
    List (ℚ × List α) → List (ℚ × List α)
  | [] => [(k, [x])]
  | (k', xs) :: rest =>
    if k = k' then (k', xs ++ [x]) :: rest
    else (k', xs) :: addToGroup k x rest

/-- Group a list by a rational key. -/
def groupByKey {α : Type} (key : α → ℚ) (l : List α) : List (ℚ × List α) :=
  l.foldl (fun acc x => addToGroup (key x) x acc) []

/-- Bucket lookup; the key always comes from the list itself. -/
def lookupGroup {α : Type} (k : ℚ) : List (ℚ × List α) → List α
  | [] => []
  | (k', xs) :: rest => if k = k' then xs else lookupGroup k rest

/-- Stable insertion for ascending sort by a rational key. -/
def insertBy {α : Type} (key : α → ℚ) (x : α) : List α → List α
  | [] => [x]
  | y :: ys => if key x ≤ key y then x :: y :: ys else y :: insertBy key x ys

/-- Python's stable `sorted(l, key=key)`. -/
def sortBy {α : Type} (key : α → ℚ) (l : List α) : List α :=
  l.foldr (insertBy key) []

/-- Python's `sorted(l, reverse=True)` on rationals. -/
def sortDesc (l : List ℚ) : List ℚ :=
  sortBy (fun q => -q) l

/-- `min` over a list of rationals seeded by a head element. -/
def foldMin (x : ℚ) (l : List ℚ) : ℚ := l.foldl min x

/-- `max` over a list of rationals seeded by a head element. -/
def foldMax (x : ℚ) (l : List ℚ) : ℚ := l.foldl max x

/-- First `some` produced by `f` along the list (the shape of the
`for … return …` loops in the source). -/
def firstHit {α β : Type} (f : α → Option β) : List α → Option β
  | [] => none
  | x :: xs =>
    match f x with
    | some r => some r
    | none => firstHit f xs

/-! ### FontClusterExtractor — `extract_title_from_chars` -/

/-- The score formula of the font extractor:
`min(0.9, 0.7 + size / 20.0)`. -/
def fontScore (size : ℚ) : ℚ :=
  min (9/10) (7/10 + size / 20)

/-- The result the font extractor constructs for an accepted line. -/
def fontResult (size : ℚ) (text : String) : TitleExtractionResult :=
  { title := some text
    method := "font_analysis"
    score := fontScore size
    explanation := "Found via font analysis (size: " ++ fmtQ1 size ++ ")"
    original_text_sample := pyTake text 50 }

/-- The null result of the font extractor. -/
def nullFontResult : TitleExtractionResult :=
  { title := none
    method := "font_analysis"
    score := 0
    explanation := "No suitable title found via font analysis" }

/-- One line of one font bucket: sort its glyphs by `x0`, concatenate
their texts, strip; accept when non-empty and title-like. -/
def tryFontLine (size : ℚ) (lineChars : List Glyph) :
    Option TitleExtractionResult :=
  let text := pyStrip (String.join ((sortBy (fun c => c.x0) lineChars).map (fun c => c.text)))
  if text ≠ "" ∧ is_likely_title text then some (fontResult size text)
  else none

/-- One font-size bucket: group glyphs into lines by `round(y0, 1)` and
scan the lines top to bottom (descending `y`). -/
def tryFontSize (size : ℚ) (charsWithSize : List Glyph) :
    Option TitleExtractionResult :=
  let lines := groupByKey (fun c => pyRound1 c.y0) charsWithSize
  firstHit (fun y => tryFontLine size (lookupGroup y lines))
    (sortDesc (lines.map Prod.fst))

/-- `extract_title_from_chars`.  `none` models the Python `None` the
source returns when the glyph list is empty or no glyph has positive
size; `some r` models a returned `TitleExtractionResult`. -/
def extract_title_from_chars (page : Page) : Option TitleExtractionResult :=
  if page.chars.isEmpty then none
  else
    let font_sizes := groupByKey (fun c => c.size)
      (page.chars.filter (fun c => c.size > 0))
    if font_sizes.isEmpty then none
    else
      let sorted_sizes := sortDesc (font_sizes.map Prod.fst)
      match firstHit (fun s => tryFontSize s (lookupGroup s font_sizes))
          (sorted_sizes.take 3) with
      | some r => some r
      | none => some nullFontResult

/-! ### PositionalExtractor — `extract_title_from_positioned_text` -/

/-- Absolute value on rationals, spelled out so it evaluates by kernel
reduction. -/
def qabs (q : ℚ) : ℚ :=
  if q < 0 then -q else q

/-- The joined, stripped text of one line of words. -/
def lineText (lineWords : List Word) : String :=
  pyStrip (String.intercalate " " ((sortBy (fun w => w.x0) lineWords).map (fun w => w.text)))

/-- The result of the first (centered) positional pass. -/
def centeredResult (y : ℚ) (text : String) : TitleExtractionResult :=
  { title := some text
    method := "position_analysis_centered"
    score := 8/10
    explanation := "Centered text in top region (y: " ++ fmtQ0 y ++ ")"
    original_text_sample := pyTake text 50 }

/-- The result of the second (non-centered) positional pass. -/
def topResult (y : ℚ) (text : String) : TitleExtractionResult :=
  { title := some text
    method := "position_analysis_top"
    score := 6/10
    explanation := "Top region text (y: " ++ fmtQ0 y ++ ")"
    original_text_sample := pyTake text 50 }

/-- The null result of the positional extractor. -/
def nullPosResult : TitleExtractionResult :=
  { title := none
    method := "position_analysis"
    score := 0
    explanation := "No suitable title found via position analysis" }

/-- First pass of the positional extractor: accept a title-like line
only when its horizontal center is within a quarter page width of the
page center; score 0.8. -/
def tryCenteredLine (pageWidth : ℚ) (y : ℚ) (lineWords : List Word) :
    Option TitleExtractionResult :=
  let text := lineText lineWords
  if text ≠ "" ∧ is_likely_title text then
    let sorted := sortBy (fun w => w.x0) lineWords
    let line_start := foldMin (sorted.headI.x0) ((sorted.map (fun w => w.x0)).tail)
    let line_end := foldMax (sorted.headI.x1) ((sorted.map (fun w => w.x1)).tail)
    let line_center := line_start + (line_end - line_start) / 2
    if qabs (line_center - pageWidth / 2) ≤ pageWidth * (1/4) then
      some (centeredResult y text)
    else none
  else none

/-- Second pass: accept any title-like line in the top region; score 0.6. -/
def tryTopLine (y : ℚ) (lineWords : List Word) :
    Option TitleExtractionResult :=
  let text := lineText lineWords
  if text ≠ "" ∧ is_likely_title text then some (topResult y text)
  else none

/-- `extract_title_from_positioned_text`.  As in the source, `none`
models the Python `None` returned when the word list is empty or no
word lies in the top region. -/
def extract_title_from_positioned_text (page : Page) :
    Option TitleExtractionResult :=
  let words := page.words
  if words.isEmpty then none
  else
    let top_region_height := page.height * (7/10)
    let top_words := words.filter (fun w => w.top ≥ top_region_height)
    if top_words.isEmpty then none
    else
      let lines := groupByKey (fun w => pyRound1 w.top) top_words
      let ys := sortDesc (lines.map Prod.fst)
      match firstHit (fun y => tryCenteredLine page.width y (lookupGroup y lines)) ys with
      | some r => some r
      | none =>
        match firstHit (fun y => tryTopLine y (lookupGroup y lines)) ys with
        | some r => some r
        | none => some nullPosResult

/-! ### FallbackLineExtractor — `extract_title_fallback` -/

/-- Split helper: accumulate the current piece (reversed), emitting a
piece at every newline. -/
def splitNlAux : List Char → List Char → List String
  | [], acc => [String.mk acc.reverse]
  | c :: cs, acc =>
    if c = '\n' then String.mk acc.reverse :: splitNlAux cs []
    else splitNlAux cs (c :: acc)

/-- Python `text.split("\n")` — split at each newline, keeping empty
pieces. -/
def splitNl (s : String) : List String :=
  splitNlAux s.data []

/-- The non-empty stripped lines of the raw text
(`[line.strip() for line in text.split("\n") if line.strip()]`). -/
def fallbackLines (text : String) : List String :=
  ((splitNl text).map pyStrip).filter (fun l => l ≠ "")

/-- Truncation at 100 characters with an ellipsis marker. -/
def truncate100 (line : String) : String :=
  if line.length > 100 then pyTake line 100 ++ "..." else line

/-- The fallback score formula `max(0.1, 0.5 - i * 0.05)` for the
0-based line index `i`. -/
def fallbackScore (i : ℕ) : ℚ :=
  max (1/10) (1/2 - i * (1/20))

/-- Scan the first lines with their 0-based indices for one passing the
classifier. -/
def firstValidated : List String → ℕ → Option (ℕ × String)
  | [], _ => none
  | l :: ls, i =>
    if is_likely_title l then some (i, l) else firstValidated ls (i + 1)

/-- The result of a validated fallback line at 0-based index `i`
(title already truncated). -/
def validatedResult (i : ℕ) (line : String) : TitleExtractionResult :=
  { title := some (truncate100 line)
    method := "fallback_validated"
    score := fallbackScore i
    explanation := "Validated title from line " ++ toString (i + 1)
    original_text_sample := pyTake (truncate100 line) 50 }

/-- The last-resort first-line result. -/
def firstLineResult (t : String) : TitleExtractionResult :=
  { title := some (truncate100 t)
    method := "fallback_first_line"
    score := 1/10
    explanation := "Used first line as last resort"
    original_text_sample := pyTake (truncate100 t) 50 }

/-- The null result of the fallback extractor. -/
def nullFallbackResult : TitleExtractionResult :=
  { title := none
    method := "fallback"
    score := 0
    explanation := "No text found for fallback extraction" }

/-- `extract_title_fallback` — unlike the other two extractors this one
always returns a `TitleExtractionResult`. -/
def extract_title_fallback (text : String) : TitleExtractionResult :=
  let lines := fallbackLines text
  match firstValidated (lines.take 10) 0 with
  | some (i, l) => validatedResult i l
  | none =>
    match lines with
    | t :: _ => firstLineResult t
    | [] => nullFallbackResult

/-! ### ExtractionOrchestrator — `extract_title` -/

/-- Python truthiness of the `title` field (`if result.title:`): a
present, non-empty string. -/
def truthyTitle : Option String → Bool
  | none => false
  | some s => s ≠ ""

/-- Python `max(results, key=lambda r: r.score)`: scan left to right,
replace only on a strictly greater key, so the first element among
equal scores wins. -/
def pymaxByScore (x : TitleExtractionResult) (xs : List TitleExtractionResult) :
    TitleExtractionResult :=
  xs.foldl (fun best r => if r.score > best.score then r else best) x

/-- Stages 2 and 3 of the orchestrator, reached when font analysis
produced a result without a truthy title (kept as the three-way
best-score comparison input `result1`). -/
def extract_title_rest (page : Page) (text : String)
    (result1 : TitleExtractionResult) : Option TitleExtractionResult :=
  match extract_title_from_positioned_text page with
  | none => none
  | some result2 =>
    if truthyTitle result2.title then some result2
    else
      let result3 := extract_title_fallback text
      if truthyTitle result3.title then some result3
      else some (pymaxByScore result1 [result2, result3])

/-- `extract_title`.  The orchestrator dereferences `.title` on each
extractor's return value, so a Python `None` from an extractor raises
`AttributeError`; that propagated exception is modelled by `none`. -/
def extract_title (page : Page) (text : String) :
    Option TitleExtractionResult :=
  match extract_title_from_chars page with
  | none => none
  | some result1 =>
    if truthyTitle result1.title then some result1
    else extract_title_rest page text result1

/-! ### FilenameFormatter — `format_filename` -/

/-- Characters kept by the character-class deletion (lowercase ASCII
letters, digits, whitespace). -/
def keepChar (c : Char) : Bool :=
  isLowerAZ c || c.isDigit || pyIsSpace c

/-- Collapse whitespace runs to a single space
(the state flag records whether the previous kept character was part
of a whitespace run). -/
def collapseWsAux : List Char → Bool → List Char
  | [], _ => []
  | c :: cs, prevSpace =>
    if pyIsSpace c then
      if prevSpace then collapseWsAux cs true
      else ' ' :: collapseWsAux cs true
    else c :: collapseWsAux cs false

/-- The character list of the formatted name before the `.pdf` suffix:
lowercase, delete everything outside lowercase-letters/digits/whitespace,
strip, collapse whitespace runs to one space, replace spaces with
underscores. -/
def formatCoreList (text : String) : List Char :=
  (collapseWsAux (stripList ((pyLower text).data.filter keepChar)) false).map
    (fun c => if c = ' ' then '_' else c)

/-- `format_filename`. -/
def format_filename (text : String) : String :=
  String.mk (formatCoreList text) ++ ".pdf"

/-- Remove the trailing `.pdf` that `format_filename` always appends
(the claim's de-suffixing). -/
def dropPdf (s : String) : String :=
  String.mk (s.data.take (s.data.length - 4))

/-! ### Concrete inputs used by witnesses and counterexamples -/

/-- A page with no glyphs and no words (e.g. a scanned page). -/
def emptyPage : Page :=
  ⟨[], [], 612, 792⟩

/-- Glyphs spelling `s` on one line (`y0 = 90`) at font size `1/2`. -/
def glyphsOf (s : String) : List Glyph :=
  s.data.enum.map (fun p => ⟨1/2, 90, p.1, String.mk [p.2]⟩)

/-- A page whose only glyph line and only word line are the single
letter `X`, which the classifier rejects: both geometric extractors
run to completion and fail. -/
def pageOnlyNoise : Page :=
  ⟨[⟨12, 700, 10, "X"⟩], [⟨700, 10, 20, "X"⟩], 612, 792⟩

/-- A page where font analysis finds `Big Cat Runs` at size `1/2`
(score `29/40`) while position analysis would find the same line
centered (score `4/5`). -/
def pageFontTitle : Page :=
  ⟨glyphsOf "Big Cat Runs",
   [⟨90, 40, 45, "Big"⟩, ⟨90, 46, 50, "Cat"⟩, ⟨90, 51, 60, "Runs"⟩],
   100, 100⟩

/-- The data-model invariants of a constructed `TitleExtractionResult`:
score within `[0,1]` and equal to `0` exactly when the title is absent,
non-empty explanation, a present title non-empty and not
whitespace-only, and the diagnostic sample present exactly for present
titles, equal to the title's 50-character prefix. -/
def resultInvariant (r : TitleExtractionResult) : Prop :=
  0 ≤ r.score ∧ r.score ≤ 1 ∧ r.explanation ≠ "" ∧
  r.original_text_sample.length ≤ 50 ∧
  (r.title = none ↔ r.score = 0) ∧
  (r.title = none → r.original_text_sample = "") ∧
  (∀ t, r.title = some t →
    t ≠ "" ∧ (∃ c ∈ t.data, pyIsSpace c = false) ∧
    r.original_text_sample = pyTake t 50)

/-! ### Helper lemmas -/

theorem firstHit_eq_some {α β : Type} {f : α → Option β} :
    ∀ {l : List α} {r : β}, firstHit f l = some r → ∃ a ∈ l, f a = some r := by
  intro l
  induction l with
  | nil => intro r h; simp [firstHit] at h
  | cons x xs ih =>
    intro r h
    rw [firstHit] at h
    cases hx : f x with
    | some v =>
      rw [hx] at h
      exact ⟨x, List.mem_cons_self x xs, hx.trans h⟩
    | none =>
      rw [hx] at h
      obtain ⟨a, ha, hfa⟩ := ih h
      exact ⟨a, List.mem_cons_of_mem x ha, hfa⟩

theorem mem_insertBy {α : Type} {key : α → ℚ} {x a : α} :
    ∀ {l : List α}, a ∈ insertBy key x l → a = x ∨ a ∈ l := by
  intro l
  induction l with
  | nil => intro h; simp [insertBy] at h; exact Or.inl h
  | cons y ys ih =>
    intro h
    rw [insertBy] at h
    by_cases hk : key x ≤ key y
    · rw [if_pos hk] at h
      rcases List.mem_cons.1 h with h1 | h2
      · exact Or.inl h1
      · exact Or.inr h2
    · rw [if_neg hk] at h
      rcases List.mem_cons.1 h with h1 | h2
      · exact Or.inr (h1 ▸ List.mem_cons_self y ys)
      · rcases ih h2 with h3 | h4
        · exact Or.inl h3
        · exact Or.inr (List.mem_cons_of_mem y h4)

theorem mem_sortBy {α : Type} {key : α → ℚ} {a : α} :
    ∀ {l : List α}, a ∈ sortBy key l → a ∈ l := by
  intro l
  induction l with
  | nil => intro h; simp [sortBy] at h
  | cons y ys ih =>
    intro h
    rw [sortBy, List.foldr_cons] at h
    rcases mem_insertBy h with h1 | h2
    · exact h1 ▸ List.mem_cons_self y ys
    · exact List.mem_cons_of_mem y (ih (by rw [sortBy]; exact h2))

theorem mem_sortDesc {a : ℚ} {l : List ℚ} (h : a ∈ sortDesc l) : a ∈ l :=
  mem_sortBy h

theorem mem_keys_addToGroup {α : Type} {k k' : ℚ} {x : α} :
    ∀ {acc : List (ℚ × List α)},
      k' ∈ (addToGroup k x acc).map Prod.fst →
      k' = k ∨ k' ∈ acc.map Prod.fst := by
  intro acc
  induction acc with
  | nil => intro h; simp [addToGroup] at h; exact Or.inl h
  | cons p rest ih =>
    intro h
    rw [addToGroup] at h
    by_cases hk : k = p.1
    · rw [if_pos hk] at h
      rcases List.mem_map.1 h with ⟨q, hq, hfst⟩
      rcases List.mem_cons.1 hq with h1 | h2
      · exact Or.inr (List.mem_map.2 ⟨p, List.mem_cons_self p rest, by rw [← hfst, h1]⟩)
      · exact Or.inr (List.mem_map.2 ⟨q, List.mem_cons_of_mem p h2, hfst⟩)
    · rw [if_neg hk] at h
      rcases List.mem_map.1 h with ⟨q, hq, hfst⟩
      rcases List.mem_cons.1 hq with h1 | h2
      · exact Or.inr (List.mem_map.2 ⟨p, List.mem_cons_self p rest, by rw [← hfst, h1]⟩)
      · rcases ih (List.mem_map.2 ⟨q, h2, hfst⟩) with h3 | h4
        · exact Or.inl h3
        · rcases List.mem_map.1 h4 with ⟨q', hq', hfst'⟩
          exact Or.inr (List.mem_map.2 ⟨q', List.mem_cons_of_mem p hq', hfst'⟩)

theorem mem_keys_groupByKey {α : Type} {key : α → ℚ} {k : ℚ} {l : List α} :
    k ∈ (groupByKey key l).map Prod.fst → ∃ x ∈ l, key x = k := by
  suffices h : ∀ (l : List α) (acc : List (ℚ × List α)),
      k ∈ ((l.foldl (fun acc x => addToGroup (key x) x acc) acc).map Prod.fst) →
      k ∈ acc.map Prod.fst ∨ ∃ x ∈ l, key x = k by
    intro hk
    rcases h l [] hk with h1 | h2
    · simp at h1
    · exact h2
  intro l
  induction l with
  | nil => intro acc h; exact Or.inl h
  | cons y ys ih =>
    intro acc h
    rw [List.foldl_cons] at h
    rcases ih (addToGroup (key y) y acc) h with h1 | h2
    · rcases mem_keys_addToGroup h1 with h3 | h4
      · exact Or.inr ⟨y, List.mem_cons_self y ys, h3.symm⟩
      · exact Or.inl h4
    · obtain ⟨x, hx, hkx⟩ := h2
      exact Or.inr ⟨x, List.mem_cons_of_mem y hx, hkx⟩

theorem dropWhile_cons_not {p : Char → Bool} {c : Char} {cs : List Char} :
    ∀ {l : List Char}, l.dropWhile p = c :: cs → p c = false := by
  intro l
  induction l with
  | nil => intro h; simp [List.dropWhile] at h
  | cons x xs ih =>
    intro h
    rw [List.dropWhile_cons] at h
    by_cases hx : p x
    · rw [if_pos hx] at h; exact ih h
    · rw [if_neg hx] at h
      rw [List.cons.injEq] at h
      rw [← h.1]
      exact Bool.eq_false_iff.2 hx

/-- A non-empty stripped character list contains a non-whitespace
character. -/
theorem stripList_has_nonspace {l : List Char} (h : stripList l ≠ []) :
    ∃ c ∈ stripList l, pyIsSpace c = false := by
  unfold stripList at h ⊢
  cases hd : (l.dropWhile pyIsSpace).reverse.dropWhile pyIsSpace with
  | nil => simp [hd] at h
  | cons c cs =>
    exact ⟨c, List.mem_reverse.2 (List.mem_cons_self c cs),
      dropWhile_cons_not hd⟩

/-- A non-empty stripped string contains a non-whitespace character. -/
theorem pyStrip_has_nonspace {s : String} (h : pyStrip s ≠ "") :
    ∃ c ∈ (pyStrip s).data, pyIsSpace c = false := by
  have hne : stripList s.data ≠ [] := by
    intro hnil
    apply h
    rw [pyStrip, hnil]
  obtain ⟨c, hc, hcs⟩ := stripList_has_nonspace hne
  exact ⟨c, by rw [pyStrip]; exact hc, hcs⟩

/-- A string whose length is positive is not the empty string. -/
theorem ne_empty_of_length_pos {s : String} (h : 0 < s.length) : s ≠ "" := by
  intro he
  rw [he] at h
  simp at h

/-- A non-empty string has positive length. -/
theorem length_pos_of_ne_empty {s : String} (h : s ≠ "") : 0 < s.length := by
  cases s with
  | mk data =>
    cases data with
    | nil => exact absurd rfl h
    | cons c cs => simp [String.length]

/-- The left part of a string append dominates emptiness. -/
theorem append_ne_empty_left {s t : String} (h : s ≠ "") : s ++ t ≠ "" := by
  apply ne_empty_of_length_pos
  rw [String.length_append]
  have := length_pos_of_ne_empty h
  omega

/-- The right part of a string append dominates emptiness. -/
theorem append_ne_empty_right {s t : String} (h : t ≠ "") : s ++ t ≠ "" := by
  apply ne_empty_of_length_pos
  rw [String.length_append]
  have := length_pos_of_ne_empty h
  omega

/-- The sample never exceeds 50 characters. -/
theorem pyTake_length_le (s : String) (n : ℕ) : (pyTake s n).length ≤ n := by
  rw [pyTake]
  show (s.data.take n).length ≤ n
  rw [List.length_take]
  exact min_le_left n s.data.length

/-- Every font size reaching `tryFontSize` through the orchestrating
fold is the size of some positive-size glyph of the page. -/
theorem font_size_pos {page : Page} {s : ℚ}
    (h : s ∈ (sortDesc ((groupByKey (fun c => c.size)
      (page.chars.filter (fun c => c.size > 0))).map Prod.fst)).take 3) :
    0 < s := by
  have h1 : s ∈ sortDesc ((groupByKey (fun c : Glyph => c.size)
      (page.chars.filter (fun c => c.size > 0))).map Prod.fst) :=
    List.mem_of_mem_take h
  have h2 := mem_sortDesc h1
  obtain ⟨x, hx, hxs⟩ := mem_keys_groupByKey h2
  have := List.of_mem_filter hx
  rw [← hxs]
  exact of_decide_eq_true this

theorem fontScore_bounds {s : ℚ} (hs : 0 < s) :
    7/10 < fontScore s ∧ fontScore s ≤ 9/10 := by
  unfold fontScore
  constructor
  · apply lt_min
    · norm_num
    · linarith
  · exact min_le_left _ _

theorem fallbackScore_bounds (i : ℕ) :
    1/10 ≤ fallbackScore i ∧ fallbackScore i ≤ 1/2 := by
  unfold fallbackScore
  refine ⟨le_max_left _ _, max_le (by norm_num) ?_⟩
  have : (0:ℚ) ≤ (i : ℚ) * (1/20) := by positivity
  linarith

theorem tryFontLine_eq_some {s : ℚ} {g : List Glyph}
    {r : TitleExtractionResult} (h : tryFontLine s g = some r) :
    ∃ text, r = fontResult s text ∧ text ≠ "" ∧
      text = pyStrip (String.join ((sortBy (fun c => c.x0) g).map (fun c => c.text))) := by
  simp only [tryFontLine] at h
  split_ifs at h with hc
  exact ⟨_, (Option.some_inj.1 h).symm, hc.1, rfl⟩

theorem tryFontSize_eq_some {s : ℚ} {g : List Glyph}
    {r : TitleExtractionResult} (h : tryFontSize s g = some r) :
    ∃ text, r = fontResult s text ∧ text ≠ "" ∧ ∃ raw, text = pyStrip raw := by
  simp only [tryFontSize] at h
  obtain ⟨y, _, hy⟩ := firstHit_eq_some h
  obtain ⟨text, hr, hne, hstrip⟩ := tryFontLine_eq_some hy
  exact ⟨text, hr, hne, _, hstrip⟩

theorem tryCenteredLine_eq_some {pw y : ℚ} {g : List Word}
    {r : TitleExtractionResult} (h : tryCenteredLine pw y g = some r) :
    ∃ text, r = centeredResult y text ∧ text ≠ "" ∧ ∃ raw, text = pyStrip raw := by
  simp only [tryCenteredLine] at h
  split_ifs at h with hc hcen
  exact ⟨_, (Option.some_inj.1 h).symm, hc.1, _, rfl⟩

theorem tryTopLine_eq_some {y : ℚ} {g : List Word}
    {r : TitleExtractionResult} (h : tryTopLine y g = some r) :
    ∃ text, r = topResult y text ∧ text ≠ "" ∧ ∃ raw, text = pyStrip raw := by
  simp only [tryTopLine] at h
  split_ifs at h with hc
  exact ⟨_, (Option.some_inj.1 h).symm, hc.1, _, rfl⟩

/-- Every value the font extractor returns is either its null result
or an accepted line from a positive-size bucket. -/
theorem extract_chars_shape {page : Page} {r : TitleExtractionResult}
    (h : extract_title_from_chars page = some r) :
    r = nullFontResult ∨
    ∃ s text, 0 < s ∧ text ≠ "" ∧ (∃ raw, text = pyStrip raw) ∧
      r = fontResult s text := by
  simp only [extract_title_from_chars] at h
  split_ifs at h with h1 h2
  split at h
  next r' hfh =>
    obtain ⟨s, hs, hsz⟩ := firstHit_eq_some hfh
    obtain ⟨text, hr, hne, hstrip⟩ := tryFontSize_eq_some hsz
    exact Or.inr ⟨s, text, font_size_pos hs, hne, hstrip,
      (Option.some_inj.1 h) ▸ hr⟩
  next hfh =>
    exact Or.inl (Option.some_inj.1 h).symm

/-- Every value the positional extractor returns is either its null
result or an accepted top-region line. -/
theorem extract_pos_shape {page : Page} {r : TitleExtractionResult}
    (h : extract_title_from_positioned_text page = some r) :
    r = nullPosResult ∨
    ∃ y text, text ≠ "" ∧ (∃ raw, text = pyStrip raw) ∧
      (r = centeredResult y text ∨ r = topResult y text) := by
  simp only [extract_title_from_positioned_text] at h
  split_ifs at h with h1 h2
  split at h
  next r' hfh =>
    obtain ⟨y, _, hy⟩ := firstHit_eq_some hfh
    obtain ⟨text, hr, hne, hstrip⟩ := tryCenteredLine_eq_some hy
    exact Or.inr ⟨y, text, hne, hstrip, Or.inl ((Option.some_inj.1 h) ▸ hr)⟩
  next hfh =>
    split at h
    next r' hfh2 =>
      obtain ⟨y, _, hy⟩ := firstHit_eq_some hfh2
      obtain ⟨text, hr, hne, hstrip⟩ := tryTopLine_eq_some hy
      exact Or.inr ⟨y, text, hne, hstrip, Or.inr ((Option.some_inj.1 h) ▸ hr)⟩
    next hfh2 =>
      exact Or.inl (Option.some_inj.1 h).symm

theorem firstValidated_mem :
    ∀ {l : List String} {k i : ℕ} {line : String},
      firstValidated l k = some (i, line) →
      line ∈ l ∧ is_likely_title line = true := by
  intro l
  induction l with
  | nil => intro k i line h; simp [firstValidated] at h
  | cons x xs ih =>
    intro k i line h
    rw [firstValidated] at h
    by_cases hx : is_likely_title x = true
    · rw [if_pos hx] at h
      simp only [Option.some_inj, Prod.mk.injEq] at h
      rw [← h.2]
      exact ⟨List.mem_cons_self x xs, hx⟩
    · rw [if_neg hx] at h
      obtain ⟨h1, h2⟩ := ih h
      exact ⟨List.mem_cons_of_mem x h1, h2⟩

theorem firstValidated_eq_some_of :
    ∀ {l : List String} {i : ℕ} {line : String},
      l.get? i = some line → is_likely_title line = true →
      (∀ j lj, j < i → l.get? j = some lj → is_likely_title lj = false) →
      ∀ k, firstValidated l k = some (k + i, line) := by
  intro l
  induction l with
  | nil => intro i line h _ _ k; simp at h
  | cons x xs ih =>
    intro i line hget hpass hbefore k
    cases i with
    | zero =>
      rw [List.get?_cons_zero, Option.some_inj] at hget
      rw [firstValidated, hget, if_pos hpass]
      simp
    | succ n =>
      have hx : is_likely_title x = false :=
        hbefore 0 x (Nat.succ_pos n) rfl
      rw [firstValidated, if_neg (by rw [hx]; exact Bool.false_ne_true)]
      rw [List.get?_cons_succ] at hget
      have hih := ih hget hpass
        (fun j lj hj hg => hbefore (j+1) lj (Nat.succ_lt_succ hj)
          (by rw [List.get?_cons_succ]; exact hg)) (k+1)
      rw [hih]
      simp only [Option.some_inj, Prod.mk.injEq]
      exact ⟨by omega, trivial⟩

theorem firstValidated_eq_none_of :
    ∀ {l : List String},
      (∀ i line, l.get? i = some line → is_likely_title line = false) →
      ∀ k, firstValidated l k = none := by
  intro l
  induction l with
  | nil => intro _ k; rfl
  | cons x xs ih =>
    intro h k
    have hx : is_likely_title x = false := h 0 x rfl
    rw [firstValidated, if_neg (by rw [hx]; exact Bool.false_ne_true)]
    exact ih (fun i line hg => h (i+1) line
      (by rw [List.get?_cons_succ]; exact hg)) (k+1)

theorem fallback_eq_validated {text : String} {i : ℕ} {line : String}
    (hv : firstValidated ((fallbackLines text).take 10) 0 = some (i, line)) :
    extract_title_fallback text = validatedResult i line := by
  simp only [extract_title_fallback]
  rw [hv]

theorem fallback_eq_firstLine {text t : String} {rest : List String}
    (hv : firstValidated ((fallbackLines text).take 10) 0 = none)
    (hl : fallbackLines text = t :: rest) :
    extract_title_fallback text = firstLineResult t := by
  simp only [extract_title_fallback]
  rw [hv, hl]

theorem fallback_eq_null {text : String}
    (hv : firstValidated ((fallbackLines text).take 10) 0 = none)
    (hl : fallbackLines text = []) :
    extract_title_fallback text = nullFallbackResult := by
  simp only [extract_title_fallback]
  rw [hv, hl]

theorem mem_fallbackLines {text line : String}
    (h : line ∈ fallbackLines text) :
    line ≠ "" ∧ ∃ raw, line = pyStrip raw := by
  unfold fallbackLines at h
  have h1 := List.of_mem_filter h
  have h2 := List.mem_of_mem_filter h
  rcases List.mem_map.1 h2 with ⟨raw, _, hmap⟩
  exact ⟨of_decide_eq_true h1, raw, hmap.symm⟩

/-- Every result of the fallback extractor is the null result, a
validated line, or the first-line last resort. -/
theorem extract_fallback_shape (text : String) :
    extract_title_fallback text = nullFallbackResult ∨
    (∃ i line, line ∈ fallbackLines text ∧
      extract_title_fallback text = validatedResult i line) ∨
    (∃ t rest, fallbackLines text = t :: rest ∧
      extract_title_fallback text = firstLineResult t) := by
  cases hv : firstValidated ((fallbackLines text).take 10) 0 with
  | some p =>
    obtain ⟨i, line⟩ := p
    have hmem := (firstValidated_mem hv).1
    exact Or.inr (Or.inl ⟨i, line, List.mem_of_mem_take hmem,
      fallback_eq_validated hv⟩)
  | none =>
    cases hl : fallbackLines text with
    | nil => exact Or.inl (fallback_eq_null hv hl)
    | cons t rest =>
      exact Or.inr (Or.inr ⟨t, rest, rfl, fallback_eq_firstLine hv hl⟩)

/-- A truncated non-empty stripped line is non-empty and contains a
non-whitespace character. -/
theorem truncate100_props {line : String} (hne : line ≠ "")
    (hstrip : ∃ raw, line = pyStrip raw) :
    truncate100 line ≠ "" ∧
    ∃ c ∈ (truncate100 line).data, pyIsSpace c = false := by
  obtain ⟨raw, hraw⟩ := hstrip
  unfold truncate100
  split_ifs with hlen
  · refine ⟨append_ne_empty_right (by decide), '.', ?_, by decide⟩
    have hd : (pyTake line 100 ++ "...").data =
        (pyTake line 100).data ++ "...".data := rfl
    rw [hd]
    exact List.mem_append.2 (Or.inr (by decide))
  · refine ⟨hne, ?_⟩
    rw [hraw]
    exact pyStrip_has_nonspace (hraw ▸ hne)

/-! ### Character-class lemmas for the filename formatter -/

theorem space_cases {c : Char} (h : pyIsSpace c = true) :
    c = ' ' ∨ c = '\t' ∨ c = '\n' ∨ c = '\r' ∨ c = '\x0b' ∨ c = '\x0c' := by
  unfold pyIsSpace at h
  simp only [Bool.or_eq_true, decide_eq_true_eq] at h
  tauto

theorem char_toNat_le_of_le {a b : Char} (h : a ≤ b) : a.toNat ≤ b.toNat := by
  rw [Char.le_def, UInt32.le_def, BitVec.le_def] at h
  exact h

theorem charclass_toNat {c : Char}
    (h : isLowerAZ c = true ∨ c.isDigit = true) :
    (97 ≤ c.toNat ∧ c.toNat ≤ 122) ∨ (48 ≤ c.toNat ∧ c.toNat ≤ 57) := by
  rcases h with h | h
  · left
    unfold isLowerAZ at h
    rw [Bool.and_eq_true] at h
    obtain ⟨h1, h2⟩ := h
    have ha := char_toNat_le_of_le (of_decide_eq_true h1)
    have hz := char_toNat_le_of_le (of_decide_eq_true h2)
    have e1 : Char.toNat 'a' = 97 := by decide
    have e2 : Char.toNat 'z' = 122 := by decide
    omega
  · right
    unfold Char.isDigit at h
    rw [Bool.and_eq_true] at h
    obtain ⟨h1, h2⟩ := h
    have h1' : (48 : UInt32) ≤ c.val := of_decide_eq_true h1
    have h2' : c.val ≤ (57 : UInt32) := of_decide_eq_true h2
    rw [UInt32.le_def, BitVec.le_def] at h1' h2'
    constructor
    · exact h1'
    · exact h2'

theorem nonspace_of_lower_digit {c : Char}
    (h : isLowerAZ c = true ∨ c.isDigit = true) :
    pyIsSpace c = false := by
  have hn := charclass_toNat h
  by_contra hsp
  rw [Bool.not_eq_false] at hsp
  rcases space_cases hsp with h6 | h6 | h6 | h6 | h6 | h6 <;> subst h6 <;>
    revert hn <;> decide

theorem ne_space_of_nonspace {c : Char} (h : pyIsSpace c = false) :
    c ≠ ' ' := by
  intro he
  subst he
  exact absurd h (by decide)

theorem keepChar_of_lower_digit {c : Char}
    (h : isLowerAZ c = true ∨ c.isDigit = true) :
    keepChar c = true := by
  unfold keepChar
  rcases h with h | h <;> simp [h]

theorem toLower_fix {c : Char}
    (h : isLowerAZ c = true ∨ c.isDigit = true) :
    c.toLower = c := by
  have hn := charclass_toNat h
  unfold Char.toLower
  rw [if_neg]
  omega

theorem mem_stripList {c : Char} {l : List Char} (h : c ∈ stripList l) :
    c ∈ l := by
  unfold stripList at h
  have h1 := List.mem_reverse.1 h
  have h2 := List.dropWhile_subset pyIsSpace h1
  have h3 := List.mem_reverse.1 h2
  exact List.dropWhile_subset pyIsSpace h3

theorem mem_collapseWsAux {c : Char} :
    ∀ {l : List Char} {b : Bool}, c ∈ collapseWsAux l b →
      c = ' ' ∨ (c ∈ l ∧ pyIsSpace c = false) := by
  intro l
  induction l with
  | nil => intro b h; simp [collapseWsAux] at h
  | cons x xs ih =>
    intro b h
    rw [collapseWsAux] at h
    by_cases hx : pyIsSpace x = true
    · rw [if_pos hx] at h
      cases b with
      | true =>
        rw [if_pos rfl] at h
        rcases ih h with h1 | ⟨h1, h2⟩
        · exact Or.inl h1
        · exact Or.inr ⟨List.mem_cons_of_mem x h1, h2⟩
      | false =>
        rw [if_neg (by simp)] at h
        rcases List.mem_cons.1 h with h1 | h1
        · exact Or.inl h1
        · rcases ih h1 with h2 | ⟨h2, h3⟩
          · exact Or.inl h2
          · exact Or.inr ⟨List.mem_cons_of_mem x h2, h3⟩
    · rw [if_neg hx] at h
      rcases List.mem_cons.1 h with h1 | h1
      · exact Or.inr ⟨h1 ▸ List.mem_cons_self x xs,
          h1 ▸ Bool.eq_false_iff.2 hx⟩
      · rcases ih h1 with h2 | ⟨h2, h3⟩
        · exact Or.inl h2
        · exact Or.inr ⟨List.mem_cons_of_mem x h2, h3⟩

/-- Every character of the formatted core is an underscore, a lowercase
ASCII letter or a digit (the claimed output character set). -/
theorem formatCoreList_charset {s : String} {c : Char}
    (h : c ∈ formatCoreList s) :
    c = '_' ∨ isLowerAZ c = true ∨ c.isDigit = true := by
  unfold formatCoreList at h
  rcases List.mem_map.1 h with ⟨c0, hc0, hrepl⟩
  rcases mem_collapseWsAux hc0 with h0 | ⟨h0, hns⟩
  · left
    rw [← hrepl, h0]
    simp
  · have h1 : c0 ∈ (pyLower s).data.filter keepChar := mem_stripList h0
    have h2 := List.of_mem_filter h1
    have h3 : isLowerAZ c0 = true ∨ c0.isDigit = true := by
      unfold keepChar at h2
      rw [Bool.or_eq_true, Bool.or_eq_true] at h2
      rcases h2 with (h5 | h5) | h4
      · exact Or.inl h5
      · exact Or.inr h5
      · rw [hns] at h4
        cases h4
    rw [← hrepl, if_neg (ne_space_of_nonspace hns)]
    exact Or.inr h3

theorem dropWhile_eq_self_of_nonspace {l : List Char}
    (h : ∀ c ∈ l, pyIsSpace c = false) :
    l.dropWhile pyIsSpace = l := by
  cases l with
  | nil => rfl
  | cons x xs =>
    rw [List.dropWhile_cons, if_neg]
    rw [h x (List.mem_cons_self x xs)]
    exact Bool.false_ne_true

theorem stripList_eq_self_of_nonspace {l : List Char}
    (h : ∀ c ∈ l, pyIsSpace c = false) :
    stripList l = l := by
  unfold stripList
  rw [dropWhile_eq_self_of_nonspace h]
  rw [dropWhile_eq_self_of_nonspace (fun c hc => h c (List.mem_reverse.1 hc))]
  exact List.reverse_reverse l

theorem collapseWsAux_eq_self_of_nonspace :
    ∀ {l : List Char}, (∀ c ∈ l, pyIsSpace c = false) →
      ∀ b, collapseWsAux l b = l := by
  intro l
  induction l with
  | nil => intro _ b; rfl
  | cons x xs ih =>
    intro h b
    rw [collapseWsAux, if_neg]
    · rw [ih (fun c hc => h c (List.mem_cons_of_mem x hc)) false]
    · rw [h x (List.mem_cons_self x xs)]
      exact Bool.false_ne_true

theorem map_repl_eq_self :
    ∀ {l : List Char}, (∀ c ∈ l, c ≠ ' ') →
      l.map (fun c => if c = ' ' then '_' else c) = l := by
  intro l
  induction l with
  | nil => intro _; rfl
  | cons x xs ih =>
    intro h
    rw [List.map_cons, if_neg (h x (List.mem_cons_self x xs)),
      ih (fun c hc => h c (List.mem_cons_of_mem x hc))]

theorem map_toLower_eq_self :
    ∀ {l : List Char},
      (∀ c ∈ l, isLowerAZ c = true ∨ c.isDigit = true) →
      l.map Char.toLower = l := by
  intro l
  induction l with
  | nil => intro _; rfl
  | cons x xs ih =>
    intro h
    rw [List.map_cons, toLower_fix (h x (List.mem_cons_self x xs)),
      ih (fun c hc => h c (List.mem_cons_of_mem x hc))]

/-- A list of lowercase letters and digits is a fixpoint of the
formatting core. -/
theorem formatCoreList_fix {l : List Char}
    (h : ∀ c ∈ l, isLowerAZ c = true ∨ c.isDigit = true) :
    formatCoreList (String.mk l) = l := by
  have hns : ∀ c ∈ l, pyIsSpace c = false :=
    fun c hc => nonspace_of_lower_digit (h c hc)
  unfold formatCoreList
  have hlow : (pyLower (String.mk l)).data = l := by
    show l.map Char.toLower = l
    exact map_toLower_eq_self h
  rw [hlow]
  rw [List.filter_eq_self.mpr (fun c hc => keepChar_of_lower_digit (h c hc))]
  rw [stripList_eq_self_of_nonspace hns]
  rw [collapseWsAux_eq_self_of_nonspace hns false]
  exact map_repl_eq_self (fun c hc => ne_space_of_nonspace (hns c hc))

/-- De-suffixing the formatted name recovers exactly the formatted
core. -/
theorem dropPdf_format (s : String) :
    dropPdf (format_filename s) = String.mk (formatCoreList s) := by
  unfold format_filename dropPdf
  have hd : (String.mk (formatCoreList s) ++ ".pdf").data =
      formatCoreList s ++ ".pdf".data := rfl
  rw [hd, List.length_append]
  have h4 : ".pdf".data.length = 4 := by decide
  rw [h4, Nat.add_sub_cancel]
  rw [List.take_left]

/-! ### Null-result characterizations and record invariants -/

theorem extract_chars_null {page : Page} {r : TitleExtractionResult}
    (h : extract_title_from_chars page = some r) (ht : r.title = none) :
    r = nullFontResult := by
  rcases extract_chars_shape h with h0 | ⟨s, text, _, _, _, hr⟩
  · exact h0
  · rw [hr] at ht
    simp [fontResult] at ht

theorem extract_pos_null {page : Page} {r : TitleExtractionResult}
    (h : extract_title_from_positioned_text page = some r)
    (ht : r.title = none) :
    r = nullPosResult := by
  rcases extract_pos_shape h with h0 | ⟨y, text, _, _, hr | hr⟩
  · exact h0
  · rw [hr] at ht
    simp [centeredResult] at ht
  · rw [hr] at ht
    simp [topResult] at ht

theorem extract_fallback_null {text : String}
    (ht : (extract_title_fallback text).title = none) :
    extract_title_fallback text = nullFallbackResult := by
  rcases extract_fallback_shape text with h0 | ⟨i, line, _, hr⟩ | ⟨t, rest, _, hr⟩
  · exact h0
  · rw [hr] at ht
    simp [validatedResult] at ht
  · rw [hr] at ht
    simp [firstLineResult] at ht

theorem nullFontResult_invariant : resultInvariant nullFontResult := by
  refine ⟨by decide, by decide, by decide, by decide, by simp [nullFontResult],
    fun _ => rfl, ?_⟩
  intro t ht
  simp [nullFontResult] at ht

theorem nullPosResult_invariant : resultInvariant nullPosResult := by
  refine ⟨by decide, by decide, by decide, by decide, by simp [nullPosResult],
    fun _ => rfl, ?_⟩
  intro t ht
  simp [nullPosResult] at ht

theorem nullFallbackResult_invariant : resultInvariant nullFallbackResult := by
  refine ⟨by decide, by decide, by decide, by decide,
    by simp [nullFallbackResult], fun _ => rfl, ?_⟩
  intro t ht
  simp [nullFallbackResult] at ht

theorem fontResult_invariant {s : ℚ} {text : String} (hs : 0 < s)
    (hne : text ≠ "") (hstrip : ∃ raw, text = pyStrip raw) :
    resultInvariant (fontResult s text) := by
  obtain ⟨raw, hraw⟩ := hstrip
  obtain ⟨hlo, hhi⟩ := fontScore_bounds hs
  refine ⟨by show (0:ℚ) ≤ fontScore s; linarith,
    by show fontScore s ≤ 1; linarith,
    append_ne_empty_right (by decide),
    pyTake_length_le text 50, ?_, ?_, ?_⟩
  · constructor
    · intro h0
      simp [fontResult] at h0
    · intro h0
      exfalso
      have : (fontResult s text).score = fontScore s := rfl
      rw [this] at h0
      linarith [h0 ▸ hlo]
  · intro h0
    simp [fontResult] at h0
  · intro t ht
    have htt : t = text := by
      have : (fontResult s text).title = some text := rfl
      rw [this, Option.some_inj] at ht
      exact ht.symm
    subst htt
    refine ⟨hne, ?_, rfl⟩
    rw [hraw]
    exact pyStrip_has_nonspace (hraw ▸ hne)

theorem centeredResult_invariant {y : ℚ} {text : String}
    (hne : text ≠ "") (hstrip : ∃ raw, text = pyStrip raw) :
    resultInvariant (centeredResult y text) := by
  obtain ⟨raw, hraw⟩ := hstrip
  refine ⟨by show (0:ℚ) ≤ 8/10; norm_num, by show (8:ℚ)/10 ≤ 1; norm_num,
    append_ne_empty_right (by decide),
    pyTake_length_le text 50, ?_, ?_, ?_⟩
  · constructor
    · intro h0
      simp [centeredResult] at h0
    · intro h0
      exfalso
      have : (centeredResult y text).score = 8/10 := rfl
      rw [this] at h0
      norm_num at h0
  · intro h0
    simp [centeredResult] at h0
  · intro t ht
    have htt : t = text := by
      have : (centeredResult y text).title = some text := rfl
      rw [this, Option.some_inj] at ht
      exact ht.symm
    subst htt
    refine ⟨hne, ?_, rfl⟩
    rw [hraw]
    exact pyStrip_has_nonspace (hraw ▸ hne)

theorem topResult_invariant {y : ℚ} {text : String}
    (hne : text ≠ "") (hstrip : ∃ raw, text = pyStrip raw) :
    resultInvariant (topResult y text) := by
  obtain ⟨raw, hraw⟩ := hstrip
  refine ⟨by show (0:ℚ) ≤ 6/10; norm_num, by show (6:ℚ)/10 ≤ 1; norm_num,
    append_ne_empty_right (by decide),
    pyTake_length_le text 50, ?_, ?_, ?_⟩
  · constructor
    · intro h0
      simp [topResult] at h0
    · intro h0
      exfalso
      have : (topResult y text).score = 6/10 := rfl
      rw [this] at h0
      norm_num at h0
  · intro h0
    simp [topResult] at h0
  · intro t ht
    have htt : t = text := by
      have : (topResult y text).title = some text := rfl
      rw [this, Option.some_inj] at ht
      exact ht.symm
    subst htt
    refine ⟨hne, ?_, rfl⟩
    rw [hraw]
    exact pyStrip_has_nonspace (hraw ▸ hne)

theorem validatedResult_invariant {i : ℕ} {line : String}
    (hne : line ≠ "") (hstrip : ∃ raw, line = pyStrip raw) :
    resultInvariant (validatedResult i line) := by
  obtain ⟨hlo, hhi⟩ := fallbackScore_bounds i
  obtain ⟨htne, hnsp⟩ := truncate100_props hne hstrip
  refine ⟨by show (0:ℚ) ≤ fallbackScore i; linarith,
    by show fallbackScore i ≤ 1; linarith,
    append_ne_empty_left (by decide),
    pyTake_length_le (truncate100 line) 50, ?_, ?_, ?_⟩
  · constructor
    · intro h0
      simp [validatedResult] at h0
    · intro h0
      exfalso
      have : (validatedResult i line).score = fallbackScore i := rfl
      rw [this] at h0
      linarith [h0 ▸ hlo]
  · intro h0
    simp [validatedResult] at h0
  · intro t ht
    have htt : t = truncate100 line := by
      have : (validatedResult i line).title = some (truncate100 line) := rfl
      rw [this, Option.some_inj] at ht
      exact ht.symm
    subst htt
    exact ⟨htne, hnsp, rfl⟩

theorem firstLineResult_invariant {t : String}
    (hne : t ≠ "") (hstrip : ∃ raw, t = pyStrip raw) :
    resultInvariant (firstLineResult t) := by
  obtain ⟨htne, hnsp⟩ := truncate100_props hne hstrip
  refine ⟨by show (0:ℚ) ≤ 1/10; norm_num, by show (1:ℚ)/10 ≤ 1; norm_num,
    (by decide : ("Used first line as last resort" : String) ≠ ""),
    pyTake_length_le (truncate100 t) 50, ?_, ?_, ?_⟩
  · constructor
    · intro h0
      simp [firstLineResult] at h0
    · intro h0
      exfalso
      have : (firstLineResult t).score = 1/10 := rfl
      rw [this] at h0
      norm_num at h0
  · intro h0
    simp [firstLineResult] at h0
  · intro u hu
    have htt : u = truncate100 t := by
      have : (firstLineResult t).title = some (truncate100 t) := rfl
      rw [this, Option.some_inj] at hu
      exact hu.symm
    subst htt
    exact ⟨htne, hnsp, rfl⟩

/-! ### Orchestrator reduction lemmas -/

theorem extract_title_font_some {page : Page} {text : String}
    {r1 : TitleExtractionResult}
    (h1 : extract_title_from_chars page = some r1) :
    extract_title page text =
      if truthyTitle r1.title then some r1
      else extract_title_rest page text r1 := by
  unfold extract_title
  rw [h1]

theorem extract_title_rest_pos_some {page : Page} {text : String}
    {r1 r2 : TitleExtractionResult}
    (h2 : extract_title_from_positioned_text page = some r2) :
    extract_title_rest page text r1 =
      if truthyTitle r2.title then some r2
      else
        if truthyTitle (extract_title_fallback text).title
        then some (extract_title_fallback text)
        else some (pymaxByScore r1 [r2, extract_title_fallback text]) := by
  unfold extract_title_rest
  rw [h2]

/-! ### The claims -/

/-- C1: the claim that `extract_title(page, rawText)` always returns a
`TitleExtractionResult` and never propagates an error upward fails on
the code: for every page with an empty glyph list,
`extract_title_from_chars` returns Python `None` (despite its
`-> TitleExtractionResult` annotation), and the orchestrator's
`result1.title` access raises `AttributeError`, modelled here by the
orchestrator returning `none` instead of a result. -/
theorem C1_orchestrator_crashes_on_empty_glyphs (page : Page)
    (text : String) (hc : page.chars = []) :
    extract_title page text = none := by
  unfold extract_title
  have h : extract_title_from_chars page = none := by
    unfold extract_title_from_chars
    rw [hc]
    rfl
  rw [h]

theorem C1_orchestrator_crashes_witness :
    extract_title emptyPage "Some raw text" = none :=
  C1_orchestrator_crashes_on_empty_glyphs emptyPage "Some raw text" rfl

/-- C2: the claim that the extractors return null-title
`TitleExtractionResult`s on empty inputs fails on the code: for every
page with an empty glyph list, `extract_title_from_chars` returns
Python `None` (not a result with method `font_analysis` and score 0),
and for every page with an empty word list,
`extract_title_from_positioned_text` likewise returns `None`. -/
theorem C2_extractors_none_on_empty (page : Page)
    (hc : page.chars = []) (hw : page.words = []) :
    extract_title_from_chars page = none ∧
    extract_title_from_positioned_text page = none := by
  constructor
  · unfold extract_title_from_chars
    rw [hc]
    rfl
  · unfold extract_title_from_positioned_text
    rw [hw]
    rfl

theorem C2_extractors_none_witness :
    extract_title_from_chars emptyPage = none ∧
    extract_title_from_positioned_text emptyPage = none :=
  C2_extractors_none_on_empty emptyPage rfl rfl

/-- C3 counterexample: `format_filename` is not idempotent on its own
de-suffixed output — the second pass deletes the underscores the first
pass introduced.  At `"hello world"` the first pass gives
`"hello_world.pdf"` and re-formatting the de-suffixed output gives
`"helloworld.pdf"`. -/
theorem C3_counterexample :
    format_filename "hello world" = "hello_world.pdf" ∧
    format_filename (dropPdf (format_filename "hello world")) =
      "helloworld.pdf" ∧
    format_filename (dropPdf (format_filename "hello world")) ≠
      format_filename "hello world" := by decide

/-- C3 (amended): `format_filename` is pure and deterministic, and it
is idempotent on its de-suffixed output whenever that output contains
no underscore (equivalently, whenever the formatted text is a single
word); it fails to be idempotent exactly because re-formatting deletes
underscores. -/
theorem C3_idempotent_when_no_underscore (s : String)
    (h : '_' ∉ (dropPdf (format_filename s)).data) :
    format_filename (dropPdf (format_filename s)) = format_filename s := by
  rw [dropPdf_format] at h ⊢
  have hcs : ∀ c ∈ formatCoreList s,
      isLowerAZ c = true ∨ c.isDigit = true := by
    intro c hc
    rcases formatCoreList_charset hc with h0 | h0
    · subst h0
      exact absurd hc h
    · exact h0
  show String.mk (formatCoreList (String.mk (formatCoreList s))) ++ ".pdf" =
    format_filename s
  rw [formatCoreList_fix hcs]
  rfl

theorem C3_idempotent_witness :
    format_filename (dropPdf (format_filename "hello")) =
      format_filename "hello" :=
  C3_idempotent_when_no_underscore "hello" (by decide)

/-- C4 counterexample: on a page whose only glyph line and only word
line are rejected by the classifier and whose raw text is the single
non-title-like line `"Page 3"`, the orchestrator does not return a
null-title score-0 result: it returns the non-null title `"Page 3"`
with score `1/10` and method `fallback_first_line`. -/
theorem C4_counterexample :
    extract_title pageOnlyNoise "Page 3" =
      some (firstLineResult "Page 3") ∧
    (firstLineResult "Page 3").title = some "Page 3" ∧
    (firstLineResult "Page 3").score = 1/10 ∧
    (firstLineResult "Page 3").method = "fallback_first_line" := by decide

/-- C4 (amended): for every page on which font analysis and position
analysis return results without a title, the orchestrator on raw text
`"Page 3"` returns the first non-empty line `"Page 3"` as a last-resort
title with score `1/10` and method `fallback_first_line` (the
last-attempted stage), per the fallback's last-resort rule. -/
theorem C4_page3_last_resort (page : Page)
    (r1 r2 : TitleExtractionResult)
    (h1 : extract_title_from_chars page = some r1)
    (t1 : truthyTitle r1.title = false)
    (h2 : extract_title_from_positioned_text page = some r2)
    (t2 : truthyTitle r2.title = false) :
    extract_title page "Page 3" = some (firstLineResult "Page 3") := by
  have hfb : extract_title_fallback "Page 3" = firstLineResult "Page 3" := by
    decide
  have htr : truthyTitle (firstLineResult "Page 3").title = true := by decide
  rw [extract_title_font_some h1,
    if_neg (by rw [t1]; exact Bool.false_ne_true),
    extract_title_rest_pos_some h2,
    if_neg (by rw [t2]; exact Bool.false_ne_true),
    hfb, if_pos htr]

theorem C4_page3_witness :
    extract_title pageOnlyNoise "Page 3" =
      some (firstLineResult "Page 3") :=
  C4_page3_last_resort pageOnlyNoise nullFontResult nullPosResult
    (by decide) (by decide) (by decide) (by decide)

/-- C5: `is_likely_title` rejects "Page 5", "Chapter 2", "12/31/2023",
"https://example.com" and "Abstract"; accepts "The Theory of Relativity
Explained" and "Quarterly Financial Report 2024"; and for every string
it returns `false` when there are fewer than 3 whitespace-separated
tokens, when the length exceeds 200, or when the alphabetic ratio is
below one half (`2 * alphaCount < length`). -/
theorem C5_classifier :
    is_likely_title "Page 5" = false ∧
    is_likely_title "Chapter 2" = false ∧
    is_likely_title "12/31/2023" = false ∧
    is_likely_title "https://example.com" = false ∧
    is_likely_title "Abstract" = false ∧
    is_likely_title "The Theory of Relativity Explained" = true ∧
    is_likely_title "Quarterly Financial Report 2024" = true ∧
    (∀ s : String, (pySplit s).length < 3 → is_likely_title s = false) ∧
    (∀ s : String, s.length > 200 → is_likely_title s = false) ∧
    (∀ s : String, 2 * alphaCount s < s.length →
      is_likely_title s = false) := by
  refine ⟨by decide, by decide, by decide, by decide, by decide, by decide,
    by decide, ?_, ?_, ?_⟩
  · intro s h
    simp only [is_likely_title]
    split_ifs <;> rfl
  · intro s h
    simp only [is_likely_title]
    split_ifs <;> rfl
  · intro s h
    simp only [is_likely_title]
    split_ifs <;> rfl

set_option maxRecDepth 10000 in
theorem C5_classifier_witness :
    is_likely_title "Hi" = false ∧
    is_likely_title (String.mk (List.replicate 201 'a')) = false ∧
    is_likely_title "a1 2 3 4" = false :=
  ⟨C5_classifier.2.2.2.2.2.2.2.1 "Hi" (by decide),
   C5_classifier.2.2.2.2.2.2.2.2.1 (String.mk (List.replicate 201 'a'))
     (by decide),
   C5_classifier.2.2.2.2.2.2.2.2.2 "a1 2 3 4" (by decide)⟩

/-- C6: whenever font analysis returns a result with a (truthy) title,
the orchestrator returns exactly that result for every raw text —
position analysis and the fallback never override it, whatever they
would have scored. -/
theorem C6_priority (page : Page) (text : String)
    (r1 : TitleExtractionResult)
    (h1 : extract_title_from_chars page = some r1)
    (ht : truthyTitle r1.title = true) :
    extract_title page text = some r1 := by
  rw [extract_title_font_some h1, if_pos ht]

theorem C6_priority_witness :
    extract_title pageFontTitle "irrelevant" =
      some (fontResult (1/2) "Big Cat Runs") ∧
    extract_title_from_positioned_text pageFontTitle =
      some (centeredResult 90 "Big Cat Runs") ∧
    (fontResult (1/2) "Big Cat Runs").score <
      (centeredResult 90 "Big Cat Runs").score :=
  ⟨C6_priority pageFontTitle "irrelevant" (fontResult (1/2) "Big Cat Runs")
      (by decide) (by decide),
   by decide, by decide⟩

/-- C7: every line the font extractor accepts from a size-`s` bucket is
scored `fontScore s = min(9/10, 7/10 + s/20)`; the score is `9/10`
(capped) at size 10, `8/10` at size 2, and monotonically non-decreasing
in the size. -/
theorem C7_font_score :
    (∀ (s : ℚ) (g : List Glyph) (r : TitleExtractionResult),
      tryFontLine s g = some r → r.score = fontScore s) ∧
    fontScore 10 = 9/10 ∧ fontScore 2 = 8/10 ∧
    (∀ s t : ℚ, s ≤ t → fontScore s ≤ fontScore t) := by
  refine ⟨?_, by decide, by decide, ?_⟩
  · intro s g r h
    obtain ⟨text, hr, _, _⟩ := tryFontLine_eq_some h
    rw [hr]
    rfl
  · intro s t hst
    unfold fontScore
    exact min_le_min (le_refl _) (by linarith)

theorem C7_font_score_witness :
    (fontResult 12 "Big Cat Runs").score = fontScore 12 ∧
    fontScore 1 ≤ fontScore 2 :=
  ⟨C7_font_score.1 12 (glyphsOf "Big Cat Runs")
      (fontResult 12 "Big Cat Runs") (by decide),
   C7_font_score.2.2.2 1 2 (by norm_num)⟩

/-- C8: the fallback extractor returns, for the first of the first 10
non-empty trimmed lines passing the classifier at index `i`, the
100-character-truncated line with score `fallbackScore i =
max(1/10, 1/2 - i/20)` and method `fallback_validated`; if none of the
first 10 pass but a non-empty line exists it returns the first line
with score exactly `1/10` and method `fallback_first_line`; with no
non-empty line it returns a null title with score 0.  The score is
`1/2` at index 0, `9/20` at index 1, and `1/10` from index 8 on. -/
theorem C8_fallback_spec (text : String) :
    (∀ (i : ℕ) (line : String), i < 10 →
      (fallbackLines text).get? i = some line →
      is_likely_title line = true →
      (∀ (j : ℕ) (lj : String), j < i →
        (fallbackLines text).get? j = some lj →
        is_likely_title lj = false) →
      extract_title_fallback text = validatedResult i line) ∧
    ((∀ (i : ℕ) (line : String), i < 10 →
        (fallbackLines text).get? i = some line →
        is_likely_title line = false) →
      ∀ (t : String) (rest : List String), fallbackLines text = t :: rest →
      extract_title_fallback text = firstLineResult t) ∧
    (fallbackLines text = [] →
      extract_title_fallback text = nullFallbackResult) ∧
    fallbackScore 0 = 1/2 ∧ fallbackScore 1 = 9/20 ∧
    (∀ i : ℕ, 8 ≤ i → fallbackScore i = 1/10) := by
  refine ⟨?_, ?_, ?_, by decide, by decide, ?_⟩
  · intro i line hi hget hpass hbefore
    apply fallback_eq_validated
    have hget10 : ((fallbackLines text).take 10).get? i = some line := by
      rw [List.get?_take hi]
      exact hget
    have hb10 : ∀ (j : ℕ) (lj : String), j < i →
        ((fallbackLines text).take 10).get? j = some lj →
        is_likely_title lj = false := by
      intro j lj hj hg
      rw [List.get?_take (lt_trans hj hi)] at hg
      exact hbefore j lj hj hg
    have hfv := firstValidated_eq_some_of hget10 hpass hb10 0
    rw [Nat.zero_add] at hfv
    exact hfv
  · intro hfail t rest hl
    refine fallback_eq_firstLine ?_ hl
    refine firstValidated_eq_none_of ?_ 0
    intro i line hg
    have hi : i < ((fallbackLines text).take 10).length := by
      by_contra hge
      push_neg at hge
      rw [List.get?_eq_none.2 hge] at hg
      cases hg
    have hi10 : i < 10 := by
      rw [List.length_take] at hi
      omega
    rw [List.get?_take hi10] at hg
    exact hfail i line hi10 hg
  · intro hl
    refine fallback_eq_null ?_ hl
    rw [hl]
    rfl
  · intro i hi
    unfold fallbackScore
    apply max_eq_left
    have hc : (8:ℚ) ≤ (i:ℚ) := by exact_mod_cast hi
    linarith

theorem C8_fallback_witness :
    extract_title_fallback "Page 1\nThe Big Cat Runs Fast" =
      validatedResult 1 "The Big Cat Runs Fast" := by
  apply (C8_fallback_spec "Page 1\nThe Big Cat Runs Fast").1 1
    "The Big Cat Runs Fast" (by decide) (by decide) (by decide)
  intro j lj hj hg
  have hj0 : j = 0 := by omega
  subst hj0
  have h0 : (fallbackLines "Page 1\nThe Big Cat Runs Fast").get? 0 =
      some "Page 1" := by decide
  rw [h0, Option.some_inj] at hg
  rw [← hg]
  decide

/-- C9: every `TitleExtractionResult` the three extractors construct
satisfies the data-model invariants: score in `[0,1]` with score 0
exactly when the title is absent, non-empty explanation, a present
title non-empty and not whitespace-only, and the diagnostic sample
present exactly for present titles, equal to the title's 50-character
prefix (hence at most 50 characters). -/
theorem C9_invariants :
    (∀ (page : Page) (r : TitleExtractionResult),
      extract_title_from_chars page = some r → resultInvariant r) ∧
    (∀ (page : Page) (r : TitleExtractionResult),
      extract_title_from_positioned_text page = some r →
      resultInvariant r) ∧
    (∀ text : String, resultInvariant (extract_title_fallback text)) := by
  refine ⟨?_, ?_, ?_⟩
  · intro page r h
    rcases extract_chars_shape h with h0 | ⟨s, text, hs, hne, hstrip, hr⟩
    · rw [h0]
      exact nullFontResult_invariant
    · rw [hr]
      exact fontResult_invariant hs hne hstrip
  · intro page r h
    rcases extract_pos_shape h with h0 | ⟨y, text, hne, hstrip, hr | hr⟩
    · rw [h0]
      exact nullPosResult_invariant
    · rw [hr]
      exact centeredResult_invariant hne hstrip
    · rw [hr]
      exact topResult_invariant hne hstrip
  · intro text
    rcases extract_fallback_shape text with
      h0 | ⟨i, line, hmem, hr⟩ | ⟨t, rest, hl, hr⟩
    · rw [h0]
      exact nullFallbackResult_invariant
    · obtain ⟨hne, hstrip⟩ := mem_fallbackLines hmem
      rw [hr]
      exact validatedResult_invariant hne hstrip
    · have hmem : t ∈ fallbackLines text := by
        rw [hl]
        exact List.mem_cons_self t rest
      obtain ⟨hne, hstrip⟩ := mem_fallbackLines hmem
      rw [hr]
      exact firstLineResult_invariant hne hstrip

theorem C9_invariants_witness :
    resultInvariant (fontResult (1/2) "Big Cat Runs") ∧
    resultInvariant (centeredResult 90 "Big Cat Runs") ∧
    resultInvariant (extract_title_fallback "Page 3") :=
  ⟨C9_invariants.1 pageFontTitle (fontResult (1/2) "Big Cat Runs")
      (by decide),
   C9_invariants.2.1 pageFontTitle (centeredResult 90 "Big Cat Runs")
      (by decide),
   C9_invariants.2.2 "Page 3"⟩

/-- C10: when all three extractors produce results with a null title
(each therefore of score 0), the orchestrator returns the
earliest-attempted one — the font-analysis result — because Python's
`max` keeps the first element among equal scores. -/
theorem C10_tie_break (page : Page) (text : String)
    (r1 r2 : TitleExtractionResult)
    (h1 : extract_title_from_chars page = some r1)
    (t1 : r1.title = none)
    (h2 : extract_title_from_positioned_text page = some r2)
    (t2 : r2.title = none)
    (t3 : (extract_title_fallback text).title = none) :
    extract_title page text = some r1 ∧
    r1.method = "font_analysis" ∧ r1.score = 0 := by
  have e1 := extract_chars_null h1 t1
  have e2 := extract_pos_null h2 t2
  have e3 := extract_fallback_null t3
  subst e1
  subst e2
  refine ⟨?_, rfl, rfl⟩
  rw [extract_title_font_some h1, if_neg (by decide),
    extract_title_rest_pos_some h2, if_neg (by decide), e3,
    if_neg (by decide)]
  decide

theorem C10_tie_break_witness :
    extract_title pageOnlyNoise "" = some nullFontResult ∧
    nullFontResult.method = "font_analysis" ∧ nullFontResult.score = 0 :=
  C10_tie_break pageOnlyNoise "" nullFontResult nullPosResult
    (by decide) (by decide) (by decide) (by decide) (by decide)

end PdfRename
